import Mathlib

/-!
Verification of the core HTTP request machinery of the Clay (cheroot) server,
shallowly embedded from src/clay/cheroot/server.py.  Bytes are modelled as
natural numbers and byte strings as lists of naturals; the blocking socket
stream is modelled as the list of bytes it will deliver.  The module is
Python 2 only (it uses Python 2 except-clause syntax), so byte strings are
Python 2 str values and indexing a byte string yields a one-byte string.
-/

namespace Clay

/-- Byte strings (Python 2 str values) as lists of byte codes. -/
abbrev Bytes := List Nat

/-- ASCII codes of a Lean string literal, used to transcribe the byte-string
constants of server.py. -/
def ascii (s : String) : Bytes := s.toList.map Char.toNat

/-- The CRLF constant of server.py. -/
def crlfB : Bytes := [13, 10]

/-- Python byte-string truthiness for an optional size argument:
None and 0 are falsy, any other integer is truthy. -/
def truthySize : Option Nat → Bool
  | none => false
  | some n => n != 0

/-- Python whitespace bytes, as stripped by str.strip(). -/
def isPySpace (c : Nat) : Bool :=
  c == 32 || c == 9 || c == 10 || c == 13 || c == 11 || c == 12

/-- Python str.strip(): drop leading and trailing whitespace. -/
def pyStrip (l : Bytes) : Bytes :=
  ((l.dropWhile isPySpace).reverse.dropWhile isPySpace).reverse

/-- Model of file.readline() with no size limit on a buffered socket stream:
returns the prefix up to and including the first LF (or everything at EOF)
together with the remainder of the stream. -/
def readlineAll : Bytes → Bytes × Bytes
  | [] => ([], [])
  | c :: rest =>
    if c = 10 then ([c], rest)
    else
      let (l, r) := readlineAll rest
      (c :: l, r)

/-- Model of file.readline(size): like readlineAll but returns at most
size bytes. -/
def readlineLim : Nat → Bytes → Bytes × Bytes
  | 0, s => ([], s)
  | _ + 1, [] => ([], [])
  | n + 1, c :: rest =>
    if c = 10 then ([c], rest)
    else
      let (l, r) := readlineLim n rest
      (c :: l, r)

/-- Split a byte string at the first occurrence of a separator byte, as
Python bytes.split(sep, 1); none when the separator is absent. -/
def splitOnceByte (sep : Nat) : Bytes → Option (Bytes × Bytes)
  | [] => none
  | c :: rest =>
    if c = sep then some ([], rest)
    else (splitOnceByte sep rest).map (fun p => (c :: p.1, p.2))

/-- Python request_line.split(SPACE, 2): at most two splits on the byte 32. -/
def splitSpace2 (l : Bytes) : List Bytes :=
  match splitOnceByte 32 l with
  | none => [l]
  | some (a, r) =>
    match splitOnceByte 32 r with
    | none => [a, r]
    | some (b, r2) => [a, b, r2]

/-- Index of the first occurrence of a byte substring, as Python bytes.find
(none standing for the -1 of the absent case). -/
def findSub (pat : Bytes) : Bytes → Option Nat
  | [] => if pat = [] then some 0 else none
  | c :: rest =>
    if pat.isPrefixOf (c :: rest) then some 0
    else (findSub pat rest).map (· + 1)

/-- Whether a line ends with CRLF, as Python line.endswith(CRLF). -/
def endsWithCRLF (l : Bytes) : Bool := crlfB.isSuffixOf l

/-- Value of an ASCII hex digit byte, accepting 0-9, a-f and A-F as Python
int(x, 16) does on single digits. -/
def hexDigitVal (c : Nat) : Option Nat :=
  if 48 ≤ c ∧ c ≤ 57 then some (c - 48)
  else if 97 ≤ c ∧ c ≤ 102 then some (c - 87)
  else if 65 ≤ c ∧ c ≤ 70 then some (c - 55)
  else none

/-- Accumulating hex parser over the digit bytes of a chunk-size token. -/
def pyParseHexAux : Bytes → Nat → Option Nat
  | [], acc => some acc
  | c :: rest, acc =>
    match hexDigitVal c with
    | none => none
    | some d => pyParseHexAux rest (acc * 16 + d)

/-- Model of Python int(x, 16) on the chunk-size tokens produced by the
chunked framing in this file: a non-empty string of hex digits.  (Python
additionally tolerates surrounding whitespace, a sign and an 0x prefix;
no claim here evaluates the parser on such inputs.) -/
def pyParseHex (l : Bytes) : Option Nat :=
  if l = [] then none else pyParseHexAux l 0

/-- One lowercase hex digit byte, as produced by Python hex(). -/
def hexDigitChar (d : Nat) : Nat := if d < 10 then 48 + d else 87 + d

/-- Accumulator loop rendering n in lowercase hex, most significant first.
The structural fuel argument bounds the number of divisions; any fuel at
least n computes all digits. -/
def hexRenderAux : Nat → Nat → Bytes → Bytes
  | 0, _, acc => acc
  | fuel + 1, n, acc =>
    if n = 0 then acc else hexRenderAux fuel (n / 16) (hexDigitChar (n % 16) :: acc)

/-- Model of ntob(hex(len(chunk)))[2:]: the lowercase hex rendering of a
natural number with no 0x prefix. -/
def hexRender (n : Nat) : Bytes := if n = 0 then [48] else hexRenderAux n n []

/-- Number of hex digits of n (0 for 0); only used in proofs. -/
def hexLen (n : Nat) : Nat :=
  if h : n = 0 then 0 else hexLen (n / 16) + 1
termination_by n
decreasing_by exact Nat.div_lt_self (Nat.pos_of_ne_zero h) (by omega)

/-- Accumulator loop rendering n in decimal, most significant first, with
structural fuel as for hexRenderAux. -/
def decRenderAux : Nat → Nat → Bytes → Bytes
  | 0, _, acc => acc
  | fuel + 1, n, acc =>
    if n = 0 then acc else decRenderAux fuel (n / 10) ((48 + n % 10) :: acc)

/-- Decimal rendering of a natural number, as Python str(n) for n >= 0. -/
def decRender (n : Nat) : Bytes := if n = 0 then [48] else decRenderAux n n []

/-- Value of an ASCII decimal digit byte. -/
def byteDigit (c : Nat) : Option Nat :=
  if 48 ≤ c ∧ c ≤ 57 then some (c - 48) else none

/-- Accumulating decimal parser over digit bytes. -/
def pyParseDecAux : Bytes → Nat → Option Nat
  | [], acc => some acc
  | c :: rest, acc =>
    match byteDigit c with
    | none => none
    | some d => pyParseDecAux rest (acc * 10 + d)

/-- Model of Python int(x) on the status-code tokens handled here: an
optional minus sign followed by a non-empty string of decimal digits. -/
def pyParseDec (l : Bytes) : Option Int :=
  match l with
  | 45 :: rest =>
    if rest = [] then none else (pyParseDecAux rest 0).map (fun n => -(n : Int))
  | _ => if l = [] then none else (pyParseDecAux l 0).map (fun n => (n : Int))

/-- Python errors surfaced by the readers of server.py. -/
inductive PyErr
  | valueError (msg : String)
  | ioError (msg : String)
  | maxSizeExceeded
  | fuel
deriving DecidableEq, Repr

/-! ## HTTPRequest.write and the chunked response framing (server.py 851-857) -/

/-- Embedding of HTTPRequest.write: with chunked_write set and a non-empty
chunk, frame it as lowercase hex length, CRLF, chunk, CRLF; otherwise write
the chunk verbatim. -/
def requestWrite (chunkedWrite : Bool) (chunk : Bytes) : Bytes :=
  if chunkedWrite ∧ chunk ≠ [] then
    hexRender chunk.length ++ crlfB ++ chunk ++ crlfB
  else chunk

/-- The byte stream produced by emitting each chunk through
HTTPRequest.write with chunked_write set, followed by the terminal
0 CRLF CRLF written at the end of HTTPRequest.respond (server.py 814-815). -/
def encodeChunked (chunks : List Bytes) : Bytes :=
  (chunks.map (requestWrite true)).flatten ++ [48, 13, 10, 13, 10]

/-! ## ChunkedRFile (server.py 293-445) -/

/-- State of a ChunkedRFile: the remaining underlying stream and the
maxlen, bytes_read, buffer and closed attributes.  The unused bufsize
attribute is omitted. -/
structure ChunkedState where
  rfile : Bytes
  maxlen : Nat
  bytesRead : Nat
  buffer : Bytes
  closed : Bool
deriving DecidableEq, Repr

/-- A fresh ChunkedRFile over a stream, as ChunkedRFile.__init__. -/
def ChunkedState.init (stream : Bytes) (maxlen : Nat) : ChunkedState :=
  { rfile := stream, maxlen := maxlen, bytesRead := 0, buffer := [], closed := false }

/-- Embedding of ChunkedRFile._fetch.  On error the Python object is left
with partially updated attributes; no claim observes state after an error,
so errors carry no state here. -/
def chunkedFetch (st : ChunkedState) : Except PyErr ChunkedState :=
  if st.closed then .ok st
  else
    let line := (readlineAll st.rfile).1
    let r1 := (readlineAll st.rfile).2
    let br1 := st.bytesRead + line.length
    if st.maxlen ≠ 0 ∧ br1 > st.maxlen then .error .maxSizeExceeded
    else
      -- line.strip().split(SEMICOLON, 1) and then the first element
      let sizeStr := (pyStrip line).takeWhile (fun c => c ≠ 59)
      match pyParseHex sizeStr with
      | none => .error (.valueError "Bad chunked transfer size")
      | some chunkSize =>
        -- chunk_size <= 0 closes the reader; the unsigned parse never
        -- yields a negative value, so the test is equality with 0
        if chunkSize = 0 then
          .ok { st with rfile := r1, bytesRead := br1, closed := true }
        else if st.maxlen ≠ 0 ∧ br1 + chunkSize > st.maxlen then
          .error (.ioError "Request Entity Too Large")
        else
          let chunk := r1.take chunkSize
          let r2 := r1.drop chunkSize
          let crlf := r2.take 2
          if crlf ≠ crlfB then .error (.valueError "Bad chunked transfer coding")
          else
            .ok { st with rfile := r2.drop 2,
                          bytesRead := br1 + chunk.length,
                          buffer := st.buffer ++ chunk }

/-- Embedding of the ChunkedRFile.read loop.  The fuel argument bounds the
number of loop iterations; theorems supply sufficient fuel.  Python size
semantics: the size check and the partial-take branch are guarded by the
truthiness of size, so both None and 0 read the whole remaining body. -/
def chunkedRead : Nat → Option Nat → ChunkedState → Bytes → Except PyErr (Bytes × ChunkedState)
  | 0, _, _, _ => .error .fuel
  | fuel + 1, size, st, data =>
    if truthySize size ∧ data.length ≥ size.getD 0 then .ok (data, st)
    else
      match (if st.buffer = [] then chunkedFetch st else .ok st) with
      | .error e => .error e
      | .ok st1 =>
        if st1.buffer = [] then .ok (data, st1)
        else if truthySize size then
          let remaining := size.getD 0 - data.length
          chunkedRead fuel size { st1 with buffer := st1.buffer.drop remaining }
            (data ++ st1.buffer.take remaining)
        else
          chunkedRead fuel size { st1 with buffer := [] } (data ++ st1.buffer)

/-! ## KnownLengthRFile (server.py 237-290) -/

/-- State of a KnownLengthRFile: the remaining underlying stream and the
remaining attribute.  content_length is non-negative and remaining only
ever decreases by at most itself, so remaining is a natural number. -/
structure KnownLengthState where
  rfile : Bytes
  remaining : Nat
deriving DecidableEq, Repr

/-- Embedding of KnownLengthRFile.read.  The returned flag records whether
the underlying stream read was invoked. -/
def knownLengthRead (size : Option Nat) (st : KnownLengthState) :
    Bytes × KnownLengthState × Bool :=
  if st.remaining = 0 then ([], st, false)
  else
    let sz := match size with
      | none => st.remaining
      | some s => min s st.remaining
    let data := st.rfile.take sz
    (data, { rfile := st.rfile.drop sz, remaining := st.remaining - data.length }, true)

/-- Embedding of KnownLengthRFile.readline.  The returned flag records
whether the underlying stream readline was invoked. -/
def knownLengthReadline (size : Option Nat) (st : KnownLengthState) :
    Bytes × KnownLengthState × Bool :=
  if st.remaining = 0 then ([], st, false)
  else
    let sz := match size with
      | none => st.remaining
      | some s => min s st.remaining
    let data := (readlineLim sz st.rfile).1
    (data, { rfile := (readlineLim sz st.rfile).2,
             remaining := st.remaining - data.length }, true)

/-- One client call against a KnownLengthRFile. -/
inductive KLOp
  | rd (size : Option Nat)
  | rl (size : Option Nat)
deriving DecidableEq, Repr

/-- Dispatch one client call. -/
def klStep : KLOp → KnownLengthState → Bytes × KnownLengthState × Bool
  | .rd size, st => knownLengthRead size st
  | .rl size, st => knownLengthReadline size st

/-- Run a sequence of client calls, collecting the returned byte strings. -/
def klRun : List KLOp → KnownLengthState → List Bytes × KnownLengthState
  | [], st => ([], st)
  | op :: ops, st =>
    let step := klStep op st
    let rest := klRun ops step.2.1
    (step.1 :: rest.1, rest.2)

/-! ## read_headers (server.py 119-165) -/

/-- Whether a byte is an ASCII letter. -/
def isAlphaByte (c : Nat) : Bool := (65 ≤ c ∧ c ≤ 90) || (97 ≤ c ∧ c ≤ 122)

/-- Uppercase an ASCII letter byte. -/
def upperByte (c : Nat) : Nat := if 97 ≤ c ∧ c ≤ 122 then c - 32 else c

/-- Lowercase an ASCII letter byte. -/
def lowerByte (c : Nat) : Nat := if 65 ≤ c ∧ c ≤ 90 then c + 32 else c

/-- Loop of Python str.title(): a letter is uppercased when the previous
byte is not a letter and lowercased otherwise. -/
def pyTitleAux : Bool → Bytes → Bytes
  | _, [] => []
  | prevAlpha, c :: rest =>
    (if isAlphaByte c then (if prevAlpha then lowerByte c else upperByte c) else c)
      :: pyTitleAux (isAlphaByte c) rest

/-- Python str.title() on a byte string. -/
def pyTitle (l : Bytes) : Bytes := pyTitleAux false l

/-- The comma_separated_headers list of server.py (lines 106-112),
verbatim. -/
def commaSeparatedHeaders : List Bytes :=
  [ascii "Accept", ascii "Accept-Charset", ascii "Accept-Encoding",
   ascii "Accept-Language", ascii "Accept-Ranges", ascii "Allow",
   ascii "Cache-Control", ascii "Connection", ascii "Content-Encoding",
   ascii "Content-Language", ascii "Expect", ascii "If-Match",
   ascii "If-None-Match", ascii "Pragma", ascii "Proxy-Authenticate",
   ascii "TE", ascii "Trailer", ascii "Transfer-Encoding", ascii "Upgrade",
   ascii "Vary", ascii "Via", ascii "Warning", ascii "WWW-Authenticate"]

/-- The header dict, modelled as an insertion-ordered association list with
Python dict update semantics. -/
abbrev HDict := List (Bytes × Bytes)

/-- Python hdict.get(k): the stored value, if any. -/
def dictGet (d : HDict) (k : Bytes) : Option Bytes :=
  (d.find? (fun p => p.1 == k)).map (·.2)

/-- Python hdict[k] = v: replace in place, or append a new entry. -/
def dictSet (d : HDict) (k v : Bytes) : HDict :=
  if (d.find? (fun p => p.1 == k)).isSome then
    d.map (fun p => if p.1 == k then (k, v) else p)
  else d ++ [(k, v)]

/-- The comma-fold step shared by both branches of the read_headers loop
(server.py 159-162): when the current header name is in the folded list and
the previously stored value is truthy, join old and new with a comma. -/
def foldValue (hdict : HDict) (k v : Bytes) : Bytes :=
  if commaSeparatedHeaders.contains k then
    match dictGet hdict k with
    | some existing => if existing ≠ [] then existing ++ [44, 32] ++ v else v
    | none => v
  else v

/-- Results of read_headers: the populated dict with the unread remainder
of the stream, a ValueError, or an unbound-local error (the continuation
branch reading the loop locals k and hname before any assignment). -/
inductive HdrResult
  | ok (hdict : HDict) (rest : Bytes)
  | valueErr (msg : String)
  | unboundLocal
  | fuelOut
deriving DecidableEq, Repr

/-- A wire header line: name, colon, one space, value, CRLF. -/
def mkHeaderLine (n v : Bytes) : Bytes := n ++ [58, 32] ++ v ++ crlfB

/-- Embedding of read_headers.  hname holds the loop locals k and hname of
the source, which are always assigned together and always equal; none
means neither has been assigned yet.  The rfile of read_request_headers is
a SizeCheckWrapper; with the default maxlen of 0 its readline is content
equal to the plain readline modelled here. -/
def read_headers : Nat → Bytes → HDict → Option Bytes → HdrResult
  | 0, _, _, _ => .fuelOut
  | fuel + 1, stream, hdict, hname =>
    let line := (readlineAll stream).1
    let rest := (readlineAll stream).2
    if line = [] then .valueErr "Illegal end of headers."
    else if line = crlfB then .ok hdict rest
    else if ¬ endsWithCRLF line then .valueErr "HTTP requires CRLF terminators"
    else if line.head? = some 32 ∨ line.head? = some 9 then
      -- continuation line: k and hname keep their values from the
      -- previous iteration; on the first line they are unbound
      match hname with
      | none => .unboundLocal
      | some k =>
        read_headers fuel rest (dictSet hdict k (foldValue hdict k (pyStrip line))) hname
    else
      match splitOnceByte 58 line with
      | none => .valueErr "Illegal header line."
      | some (k0, v0) =>
        let k := pyTitle (pyStrip k0)
        read_headers fuel rest (dictSet hdict k (foldValue hdict k (pyStrip v0))) (some k)

/-! ## read_request_line (server.py 571-673) and parse_request_uri -/

/-- Embedding of parse_request_uri: none models the uncaught ValueError
raised when an absolute URI has no slash after the authority; otherwise
the (scheme, authority, path) triple, each component optional. -/
def parse_request_uri (uri : Bytes) : Option (Option Bytes × Option Bytes × Option Bytes) :=
  if uri = [42] then some (none, none, some uri)
  else
    let fallback : Option (Option Bytes × Option Bytes × Option Bytes) :=
      if uri.head? = some 47 then some (none, none, some uri)
      else some (none, some uri, none)
    match findSub [58, 47, 47] uri with
    | some i =>
      if 0 < i ∧ ¬ (uri.take i).contains 63 then
        let scheme := (uri.take i).map lowerByte
        let remainder := uri.drop (i + 3)
        match splitOnceByte 47 remainder with
        | none => none
        | some (authority, path) => some (some scheme, some authority, some (47 :: path))
      else fallback
    | none => fallback

/-- Modelled from the spec: the unquote imported from the missing _compat
module percent-decodes every percent-HH escape of an atom and raises
ValueError (none here) on a percent sign not followed by two hex digits. -/
def pyUnquote : Bytes → Option Bytes
  | [] => some []
  | [37] => none
  | [37, _] => none
  | 37 :: a :: b :: rest =>
    match hexDigitVal a, hexDigitVal b with
    | some ha, some hb => (pyUnquote rest).map (fun t => (ha * 16 + hb) :: t)
    | _, _ => none
  | c :: rest => (pyUnquote rest).map (fun t => c :: t)

/-- Split on the case-insensitive regex quoted_slash = %2F (server.py 104):
the maximal atoms between non-overlapping occurrences of percent, 2, F or f,
scanning left to right. -/
def splitQuotedSlash : Bytes → List Bytes
  | 37 :: 50 :: c :: rest =>
    if c = 70 ∨ c = 102 then [] :: splitQuotedSlash rest
    else
      match splitQuotedSlash (50 :: c :: rest) with
      | [] => [[37]]
      | a :: as => (37 :: a) :: as
  | c :: rest =>
    match splitQuotedSlash rest with
    | [] => [[c]]
    | a :: as => (c :: a) :: as
  | [] => [[]]

/-- The part of the path before the first question mark (the whole path when
there is none), as the split on QUESTION_MARK at server.py 625-626. -/
def pathBeforeQ (p : Bytes) : Bytes :=
  match splitOnceByte 63 p with
  | none => p
  | some (a, _) => a

/-- The query string: the part after the first question mark, or empty. -/
def qsOf (p : Bytes) : Bytes :=
  match splitOnceByte 63 p with
  | none => []
  | some (_, b) => b

/-- Python min on two integer pairs: lexicographic, first argument on ties. -/
def pyMinPair (a b : Nat × Nat) : Nat × Nat :=
  if a.1 < b.1 ∨ (a.1 = b.1 ∧ a.2 ≤ b.2) then a else b

/-- The response-protocol string HTTP/x.y written at server.py 671. -/
def protoStringOf (p : Nat × Nat) : Bytes :=
  ascii "HTTP/" ++ decRender p.1 ++ [46] ++ decRender p.2

/-- Outcome of read_request_line on one already-read request line:
a simple_response with the given status followed by a False return, an
uncaught exception, or success carrying method, stored path, stored query
string and the negotiated response protocol. -/
inductive ReqLineResult
  | respond (status : Bytes)
  | crash
  | success (method path qs responseProtocol : Bytes)
deriving DecidableEq, Repr

/-- Python 2 int(s[i]): the digit value of the byte at index i, erroring
on a missing index (IndexError) or a non-digit (ValueError). -/
def digitAt (l : Bytes) (i : Nat) : Option Nat := (l.get? i).bind byteDigit

/-- Embedding of read_request_line from the point where a request line has
been read (server.py 596-673), on a request line and the server protocol
string.  The earlier part of the function (empty read, single leading CRLF
tolerated) only re-reads the line and is outside every claim. -/
def readRequestLineCore (requestLine serverProtocol : Bytes) : ReqLineResult :=
  if ¬ endsWithCRLF requestLine then .respond (ascii "400 Bad Request")
  else
    match splitSpace2 (pyStrip requestLine) with
    | [method, uri, reqProtocol] =>
      match digitAt reqProtocol 5, digitAt reqProtocol 7 with
      | some maj, some minr =>
        match parse_request_uri uri with
        | none => .crash
        | some (_scheme, _authority, pathOpt) =>
          match pathOpt with
          | none => .crash
            -- NUMBER_SIGN in None raises an uncaught TypeError
          | some path0 =>
            if path0.contains 35 then .respond (ascii "400 Bad Request")
            else
              let path1 := pathBeforeQ path0
              let qs := qsOf path0
              match (splitQuotedSlash path1).mapM pyUnquote with
              | none => .respond (ascii "400 Bad Request")
              | some atoms =>
                let path2 := List.intercalate [37, 50, 70] atoms
                match digitAt serverProtocol 5, digitAt serverProtocol 7 with
                | some smaj, some sminr =>
                  if smaj ≠ maj then .respond (ascii "505 HTTP Version Not Supported")
                  else
                    .success method path2 qs
                      (protoStringOf (pyMinPair (maj, minr) (smaj, sminr)))
                | _, _ => .crash
                  -- a malformed server protocol raises outside the handler
      | _, _ => .respond (ascii "400 Bad Request")
    | _ => .respond (ascii "400 Bad Request")

/-! ## simple_response (server.py 817-849) -/

/-- Output of simple_response: the bytes written to the wire and the
resulting close_connection flag. -/
structure SimpleRespOut where
  out : Bytes
  closeConnection : Bool
deriving DecidableEq, Repr

/-- Embedding of simple_response.  The status line is placed in the buffer
before the 413/414 branch runs; in that branch the source rebinds its local
variable status to 400 Bad Request on non-HTTP/1.1 responses, but the
rebound local is never read again, so the buffer keeps the original status
line. -/
def simple_response (serverProtocol responseProtocol : Bytes) (closeConn : Bool)
    (status msg : Bytes) : SimpleRespOut :=
  let buf0 := serverProtocol ++ [32] ++ status ++ crlfB
    ++ ascii "Content-Length: " ++ decRender msg.length ++ crlfB
    ++ ascii "Content-Type: text/plain" ++ crlfB
  let is413or414 := status.take 3 = ascii "413" ∨ status.take 3 = ascii "414"
  let close1 := if is413or414 then true else closeConn
  let buf1 :=
    if is413or414 ∧ responseProtocol = ascii "HTTP/1.1" then
      buf0 ++ ascii "Connection: close" ++ crlfB
    else buf0
  { out := buf1 ++ crlfB ++ msg, closeConnection := close1 }

/-! ## The status property setter (server.py 502-541) -/

/-- A value assigned to HTTPRequest.status: None, an integer, or a Python 2
byte string (unicode values behave as byte strings after the ntob(str())
conversion and are not modelled separately). -/
inductive StatusValue
  | vNone
  | vInt (n : Int)
  | vBytes (b : Bytes)
deriving DecidableEq, Repr

/-- Python truthiness of a status value: None, 0 and the empty string are
falsy. -/
def truthyStatus : StatusValue → Bool
  | .vNone => false
  | .vInt n => n != 0
  | .vBytes b => b != []

/-- Python str() of an integer. -/
def intRender (n : Int) : Bytes :=
  if n < 0 then 45 :: decRender n.natAbs else decRender n.toNat

/-- The response_codes table: BaseHTTPRequestHandler.responses from the
Python 2 standard library, with the 500 and 503 reason overrides of
server.py 52-58 (which do not change those two reason phrases, only the
explanatory texts, which are unused here). Only the reason phrases are
modelled. -/
def responseCodes (code : Nat) : Option Bytes :=
  ([(100, ascii "Continue"), (101, ascii "Switching Protocols"),
    (200, ascii "OK"), (201, ascii "Created"), (202, ascii "Accepted"),
    (203, ascii "Non-Authoritative Information"), (204, ascii "No Content"),
    (205, ascii "Reset Content"), (206, ascii "Partial Content"),
    (300, ascii "Multiple Choices"), (301, ascii "Moved Permanently"),
    (302, ascii "Found"), (303, ascii "See Other"), (304, ascii "Not Modified"),
    (305, ascii "Use Proxy"), (307, ascii "Temporary Redirect"),
    (400, ascii "Bad Request"), (401, ascii "Unauthorized"),
    (402, ascii "Payment Required"), (403, ascii "Forbidden"),
    (404, ascii "Not Found"), (405, ascii "Method Not Allowed"),
    (406, ascii "Not Acceptable"), (407, ascii "Proxy Authentication Required"),
    (408, ascii "Request Timeout"), (409, ascii "Conflict"), (410, ascii "Gone"),
    (411, ascii "Length Required"), (412, ascii "Precondition Failed"),
    (413, ascii "Request Entity Too Large"), (414, ascii "Request-URI Too Long"),
    (415, ascii "Unsupported Media Type"),
    (416, ascii "Requested Range Not Satisfiable"), (417, ascii "Expectation Failed"),
    (500, ascii "Internal Server Error"), (501, ascii "Not Implemented"),
    (502, ascii "Bad Gateway"), (503, ascii "Service Unavailable"),
    (504, ascii "Gateway Timeout"), (505, ascii "HTTP Version Not Supported")]
    : List (Nat × Bytes)).lookup code

/-- Embedding of HTTPRequest._set_status: falsy values become the string
200; a missing reason is looked up in response_codes; the stored _status is
code, space, reason. -/
def setStatus (value : StatusValue) : Except String Bytes :=
  let vb : Bytes :=
    match (if truthyStatus value then value else .vBytes (ascii "200")) with
    | .vNone => ascii "None"
    | .vInt n => intRender n
    | .vBytes b => b
  let code0 : Bytes :=
    match splitOnceByte 32 vb with
    | none => vb
    | some (c, _) => c
  let reasonOpt : Option Bytes :=
    match splitOnceByte 32 vb with
    | none => none
    | some (_, r) => some (pyStrip r)
  match pyParseDec code0 with
  | none => .error "Illegal response status from server (non-numeric)."
  | some code =>
    if code < 100 ∨ code > 599 then
      .error "Illegal response status from server (out of range)."
    else
      let reason : Bytes :=
        match reasonOpt with
        | some r => r
        | none =>
          match responseCodes code.toNat with
          | none => []
          | some r => r
      .ok (decRender code.toNat ++ [32] ++ reason)

/-! # Theorems -/

/-! ## Support lemmas on streams, stripping and rendering -/

theorem readlineAll_append (xs rest : Bytes) (h : ∀ c ∈ xs, c ≠ 10) :
    readlineAll (xs ++ 10 :: rest) = (xs ++ [10], rest) := by
  induction xs with
  | nil => simp [readlineAll]
  | cons c t ih =>
    have hc : c ≠ 10 := h c (by simp)
    have ht : ∀ x ∈ t, x ≠ 10 := fun x hx => h x (by simp [hx])
    simp [readlineAll, hc, ih ht]

theorem readlineLim_length (n : Nat) (s : Bytes) : (readlineLim n s).1.length ≤ n := by
  induction n generalizing s with
  | zero => simp [readlineLim]
  | succ m ih =>
    cases s with
    | nil => simp [readlineLim]
    | cons c rest =>
      by_cases hc : c = 10
      · simp [readlineLim, hc]
      · simpa [readlineLim, hc] using ih rest

theorem dropWhile_append_all {p : Nat → Bool} {pre l : Bytes}
    (h : ∀ c ∈ pre, p c = true) :
    (pre ++ l).dropWhile p = l.dropWhile p := by
  induction pre with
  | nil => simp
  | cons c t ih =>
    have hc := h c (by simp)
    simp [List.dropWhile_cons, hc, ih fun x hx => h x (by simp [hx])]

theorem dropWhile_all {p : Nat → Bool} {l : Bytes} (h : ∀ c ∈ l, p c = true) :
    l.dropWhile p = [] := by
  induction l with
  | nil => rfl
  | cons c t ih =>
    simp [List.dropWhile_cons, h c (by simp), ih fun x hx => h x (by simp [hx])]

theorem dropWhile_head_not {p : Nat → Bool} {l : Bytes}
    (h : ∀ c, l.head? = some c → p c = false) :
    l.dropWhile p = l := by
  cases l with
  | nil => rfl
  | cons c t => simp [List.dropWhile_cons, h c rfl]

/-- pyStrip removes an all-whitespace prefix and suffix around a value whose
first and last bytes are not whitespace. -/
theorem pyStrip_wrap (pre post v : Bytes)
    (hpre : ∀ c ∈ pre, isPySpace c = true)
    (hpost : ∀ c ∈ post, isPySpace c = true)
    (hh : ∀ c, v.head? = some c → isPySpace c = false)
    (hl : ∀ c, v.getLast? = some c → isPySpace c = false) :
    pyStrip (pre ++ (v ++ post)) = v := by
  unfold pyStrip
  rw [dropWhile_append_all hpre]
  cases v with
  | nil =>
    simp only [List.nil_append]
    rw [dropWhile_all hpost]
    simp
  | cons c t =>
    have hc : isPySpace c = false := hh c rfl
    have hdw : ((c :: t) ++ post).dropWhile isPySpace = (c :: t) ++ post := by
      apply dropWhile_head_not
      intro x hx
      simp at hx
      simpa [hx] using hc
    rw [hdw, List.reverse_append]
    rw [dropWhile_append_all (by simpa using hpost)]
    have hlast : ∀ x, (c :: t).reverse.head? = some x → isPySpace x = false := by
      intro x hx
      apply hl
      rwa [List.head?_reverse] at hx
    rw [dropWhile_head_not hlast, List.reverse_reverse]

theorem hexRenderAux_sub (fuel : Nat) :
    ∀ (n : Nat) (acc : Bytes), n ≤ fuel →
      ∃ l : Bytes, hexRenderAux fuel n acc = l ++ acc ∧
        (n ≠ 0 → l ≠ []) ∧
        ∀ c ∈ l, (48 ≤ c ∧ c ≤ 57) ∨ (97 ≤ c ∧ c ≤ 102) := by
  induction fuel with
  | zero =>
    intro n acc hn
    have h0 : n = 0 := by omega
    exact ⟨[], by simp [hexRenderAux], by simp [h0], by simp⟩
  | succ fuel ih =>
    intro n acc hn
    by_cases h : n = 0
    · exact ⟨[], by simp [hexRenderAux, h], by simp [h], by simp⟩
    · have hq : n / 16 ≤ fuel := by
        have := Nat.div_lt_self (Nat.pos_of_ne_zero h) (show 1 < 16 by omega)
        omega
      obtain ⟨l, hl, _, hmem⟩ := ih (n / 16) (hexDigitChar (n % 16) :: acc) hq
      refine ⟨l ++ [hexDigitChar (n % 16)], ?_, by simp, ?_⟩
      · rw [hexRenderAux, if_neg h, hl]
        simp
      · intro c hc
        rcases List.mem_append.1 hc with hc | hc
        · exact hmem c hc
        · have hd : n % 16 < 16 := Nat.mod_lt _ (by omega)
          have : c = hexDigitChar (n % 16) := by simpa using hc
          subst this
          unfold hexDigitChar
          by_cases hd10 : n % 16 < 10 <;> simp [hd10] <;> omega

theorem hexRender_ne_nil (n : Nat) : hexRender n ≠ [] := by
  unfold hexRender
  by_cases h : n = 0
  · simp [h]
  · obtain ⟨l, hl, hne, _⟩ := hexRenderAux_sub n n [] (le_refl n)
    simp only [h, if_false]
    rw [hl]
    simpa using hne h

theorem hexRender_mem (n : Nat) :
    ∀ c ∈ hexRender n, (48 ≤ c ∧ c ≤ 57) ∨ (97 ≤ c ∧ c ≤ 102) := by
  unfold hexRender
  by_cases h : n = 0
  · simp [h]
  · obtain ⟨l, hl, _, hmem⟩ := hexRenderAux_sub n n [] (le_refl n)
    simp only [h, if_false]
    rw [hl]
    simpa using hmem

theorem hexRenderAux_zero (fuel : Nat) (acc : Bytes) : hexRenderAux fuel 0 acc = acc := by
  cases fuel <;> simp [hexRenderAux]

theorem pyParseHexAux_renderAux (fuel : Nat) :
    ∀ (n : Nat), n ≠ 0 → n ≤ fuel → ∀ (acc : Bytes) (a : Nat),
      pyParseHexAux (hexRenderAux fuel n acc) a
        = pyParseHexAux acc (a * 16 ^ hexLen n + n) := by
  induction fuel with
  | zero => intro n hn hle; omega
  | succ fuel ih =>
    intro n hn hle acc a
    have hdig : hexDigitVal (hexDigitChar (n % 16)) = some (n % 16) := by
      have hlt : n % 16 < 16 := Nat.mod_lt _ (by omega)
      unfold hexDigitChar hexDigitVal
      by_cases h10 : n % 16 < 10
      · rw [if_pos h10, if_pos (by omega)]
        congr 1
        omega
      · rw [if_neg h10, if_neg (by omega), if_pos (by omega)]
        congr 1
        omega
    rw [hexRenderAux, if_neg hn]
    by_cases hq : n / 16 = 0
    · rw [hq, hexRenderAux_zero]
      have h16 : n < 16 := by omega
      have hl1 : hexLen n = 1 := by
        rw [hexLen, dif_neg hn, hexLen, dif_pos hq]
      rw [hl1]
      simp only [pyParseHexAux, hdig, pow_one]
      congr 1
      omega
    · have hqle : n / 16 ≤ fuel := by
        have := Nat.div_lt_self (Nat.pos_of_ne_zero hn) (show 1 < 16 by omega)
        omega
      rw [ih (n / 16) hq hqle]
      have hlen : hexLen n = hexLen (n / 16) + 1 := by
        rw [hexLen, dif_neg hn]
      rw [hlen]
      simp only [pyParseHexAux, hdig]
      congr 1
      have hdm : n / 16 * 16 + n % 16 = n := by omega
      calc (a * 16 ^ hexLen (n / 16) + n / 16) * 16 + n % 16
          = a * (16 ^ hexLen (n / 16) * 16) + (n / 16 * 16 + n % 16) := by ring
        _ = a * 16 ^ (hexLen (n / 16) + 1) + n := by rw [hdm, ← pow_succ]

theorem pyParseHex_hexRender (n : Nat) : pyParseHex (hexRender n) = some n := by
  by_cases h : n = 0
  · subst h
    rfl
  · unfold pyParseHex hexRender
    rw [if_neg h]
    have hne : hexRenderAux n n [] ≠ [] := by
      obtain ⟨l, hl, hne, _⟩ := hexRenderAux_sub n n [] (le_refl n)
      rw [hl]
      simpa using hne h
    rw [if_neg hne]
    rw [pyParseHexAux_renderAux n n h (le_refl n) [] 0]
    simp [pyParseHexAux]

theorem takeWhile_ne_semi (l : Bytes) (h : ∀ c ∈ l, c ≠ 59) :
    l.takeWhile (fun c => c ≠ 59) = l := by
  induction l with
  | nil => rfl
  | cons c t ih =>
    have hc : c ≠ 59 := h c (by simp)
    have ht := ih fun x hx => h x (by simp [hx])
    simp [List.takeWhile_cons, hc, ht]
    intro x hx
    exact h x (List.mem_cons_of_mem _ hx)

theorem splitOnceByte_append (sep : Nat) (a z : Bytes) (h : ∀ c ∈ a, c ≠ sep) :
    splitOnceByte sep (a ++ sep :: z) = some (a, z) := by
  induction a with
  | nil => simp [splitOnceByte]
  | cons c t ih =>
    have hc : c ≠ sep := h c (by simp)
    simp [splitOnceByte, hc, ih fun x hx => h x (by simp [hx])]

theorem endsWithCRLF_append (xs : Bytes) : endsWithCRLF (xs ++ crlfB) = true := by
  unfold endsWithCRLF
  rw [List.isSuffixOf_iff_suffix]
  exact List.suffix_append xs crlfB

/-! ## C2: KnownLengthRFile never over-reads and is inert after exhaustion -/

theorem klStep_bound (op : KLOp) (st : KnownLengthState) :
    ((klStep op st).1).length + ((klStep op st).2.1).remaining ≤ st.remaining := by
  by_cases h0 : st.remaining = 0
  · cases op <;> simp [klStep, knownLengthRead, knownLengthReadline, h0]
  · cases op with
    | rd size =>
      cases size with
      | none =>
        have hlen : (st.rfile.take st.remaining).length ≤ st.remaining := by
          rw [List.length_take]; omega
        simp only [klStep, knownLengthRead, if_neg h0]
        omega
      | some s =>
        have hlen : (st.rfile.take (min s st.remaining)).length ≤ st.remaining := by
          rw [List.length_take]; omega
        simp only [klStep, knownLengthRead, if_neg h0]
        omega
    | rl size =>
      cases size with
      | none =>
        have hlen : ((readlineLim st.remaining st.rfile).1).length ≤ st.remaining :=
          readlineLim_length _ _
        simp only [klStep, knownLengthReadline, if_neg h0]
        omega
      | some s =>
        have hlen : ((readlineLim (min s st.remaining) st.rfile).1).length ≤ st.remaining :=
          le_trans (readlineLim_length _ _) (min_le_right _ _)
        simp only [klStep, knownLengthReadline, if_neg h0]
        omega

theorem klRun_bound (ops : List KLOp) (st : KnownLengthState) :
    (((klRun ops st).1).map List.length).sum ≤ st.remaining := by
  induction ops generalizing st with
  | nil => simp [klRun]
  | cons op ops ih =>
    have hstep := klStep_bound op st
    have hrest := ih (klStep op st).2.1
    simp only [klRun, List.map_cons, List.sum_cons]
    omega

/-- C2: for every content_length n, the total number of bytes returned
across any sequence of KnownLengthRFile.read and readline calls is at most
n, and once remaining is 0 every further read or readline returns the empty
byte string, leaves the state unchanged, and does not invoke the underlying
stream (the Boolean component of klStep). -/
theorem c2_known_length_bounded :
    (∀ (ops : List KLOp) (n : Nat) (stream : Bytes),
        (((klRun ops { rfile := stream, remaining := n }).1).map List.length).sum ≤ n) ∧
    (∀ (op : KLOp) (st : KnownLengthState), st.remaining = 0 →
        klStep op st = ([], st, false)) := by
  constructor
  · intro ops n stream
    exact klRun_bound ops { rfile := stream, remaining := n }
  · intro op st h
    cases op <;> simp [klStep, knownLengthRead, knownLengthReadline, h]

/-- Witness for C2 at a concrete call sequence and a concrete exhausted
state. -/
theorem c2_known_length_bounded_witness :
    ((((klRun [KLOp.rd (some 2), KLOp.rl none]
        { rfile := [97, 98, 10, 99], remaining := 3 }).1).map List.length).sum ≤ 3) ∧
    klStep (KLOp.rd none) { rfile := [97], remaining := 0 }
      = ([], { rfile := [97], remaining := 0 }, false) :=
  ⟨c2_known_length_bounded.1 [KLOp.rd (some 2), KLOp.rl none] 3 [97, 98, 10, 99],
   c2_known_length_bounded.2 (KLOp.rd none) { rfile := [97], remaining := 0 } rfl⟩

/-! ## C8: a continuation line first raises an unbound-local error -/

/-- C8: if the very first non-terminator header line begins with SP or HTAB,
read_headers hits the unbound loop locals k and hname (UnboundLocalError)
rather than raising ValueError, so the error is not converted to a 400 by
the ValueError handler of read_request_headers. -/
theorem c8_first_line_continuation (fuel : Nat) (stream line rest : Bytes) (hdict : HDict)
    (hrl : readlineAll stream = (line, rest))
    (hne : line ≠ []) (hncrlf : line ≠ crlfB) (hends : endsWithCRLF line = true)
    (hcont : line.head? = some 32 ∨ line.head? = some 9) :
    read_headers (fuel + 1) stream hdict none = .unboundLocal ∧
    ∀ msg, read_headers (fuel + 1) stream hdict none ≠ .valueErr msg := by
  have hmain : read_headers (fuel + 1) stream hdict none = .unboundLocal := by
    unfold read_headers
    rw [hrl]
    simp [hne, hncrlf, hends, hcont]
  exact ⟨hmain, fun msg => by rw [hmain]; exact fun h => HdrResult.noConfusion h⟩

/-- Witness for C8 at a concrete header block starting with a continuation
line. -/
theorem c8_first_line_continuation_witness :
    read_headers 1 (ascii " x\r\n\r\n") [] none = .unboundLocal ∧
    ∀ msg, read_headers 1 (ascii " x\r\n\r\n") [] none ≠ .valueErr msg :=
  c8_first_line_continuation 0 (ascii " x\r\n\r\n") (ascii " x\r\n") (ascii "\r\n") []
    (by decide) (by decide) (by decide) (by decide) (by decide)

/-! ## C9: falsy status values are stored as 200 OK -/

/-- C9: assigning any falsy value (None, 0, the empty string) to
HTTPRequest.status does not raise; the setter substitutes the string 200
and stores 200 OK, the standard reason phrase. -/
theorem c9_falsy_status (v : StatusValue) (h : truthyStatus v = false) :
    setStatus v = .ok (ascii "200 OK") := by
  cases v with
  | vNone => rfl
  | vInt n =>
    have hn : n = 0 := by simpa [truthyStatus] using h
    subst hn
    rfl
  | vBytes b =>
    have hb : b = [] := by simpa [truthyStatus] using h
    subst hb
    rfl

/-- Witness for C9 at the empty byte string. -/
theorem c9_falsy_status_witness : setStatus (.vBytes []) = .ok (ascii "200 OK") :=
  c9_falsy_status (.vBytes []) rfl

/-! ## C1 and C10: chunked framing round-trip -/

theorem mem_of_head?_eq {l : Bytes} {c : Nat} (h : l.head? = some c) : c ∈ l := by
  cases l with
  | nil => simp at h
  | cons a t =>
    simp at h
    simp [h]

theorem mem_of_getLast?_eq {l : Bytes} {c : Nat} (h : l.getLast? = some c) : c ∈ l := by
  have h2 : l.reverse.head? = some c := by rwa [List.head?_reverse]
  have h3 := mem_of_head?_eq h2
  simpa using h3

theorem hexRender_no_lf (n : Nat) : ∀ x ∈ hexRender n ++ [13], x ≠ 10 := by
  intro x hx
  rcases List.mem_append.1 hx with hx | hx
  · rcases hexRender_mem n x hx with ⟨h1, h2⟩ | ⟨h1, h2⟩ <;> omega
  · simp at hx
    omega

theorem hexRender_not_space (n : Nat) : ∀ x ∈ hexRender n, isPySpace x = false := by
  intro x hx
  rcases hexRender_mem n x hx with ⟨h1, h2⟩ | ⟨h1, h2⟩ <;>
    simp [isPySpace] <;> omega

theorem pyStrip_hexline (n : Nat) : pyStrip (hexRender n ++ [13, 10]) = hexRender n := by
  have h := pyStrip_wrap [] [13, 10] (hexRender n) (by simp) (by decide)
    (fun c hc => hexRender_not_space n c (mem_of_head?_eq hc))
    (fun c hc => hexRender_not_space n c (mem_of_getLast?_eq hc))
  simpa using h

theorem requestWrite_chunked (c : Bytes) (hc : c ≠ []) :
    requestWrite true c = hexRender c.length ++ crlfB ++ c ++ crlfB := by
  simp [requestWrite, hc]

theorem chunkedFetch_chunk (st : ChunkedState) (c rest : Bytes) (hc : c ≠ [])
    (hbuf : st.buffer = []) (hcl : st.closed = false) (hml : st.maxlen = 0)
    (hrf : st.rfile = requestWrite true c ++ rest) :
    ∃ br, chunkedFetch st
      = .ok { rfile := rest, maxlen := st.maxlen, bytesRead := br,
              buffer := c, closed := false } := by
  have hrf2 : st.rfile = (hexRender c.length ++ [13]) ++ 10 :: (c ++ 13 :: 10 :: rest) := by
    rw [hrf, requestWrite_chunked c hc]
    simp [crlfB]
  have hrla : readlineAll st.rfile
      = ((hexRender c.length ++ [13]) ++ [10], c ++ 13 :: 10 :: rest) := by
    rw [hrf2]
    exact readlineAll_append _ _ (hexRender_no_lf c.length)
  have hline : (readlineAll st.rfile).1 = hexRender c.length ++ [13, 10] := by
    rw [hrla]
    simp
  have hr1 : (readlineAll st.rfile).2 = c ++ 13 :: 10 :: rest := by
    rw [hrla]
  have hstrip : pyStrip (readlineAll st.rfile).1 = hexRender c.length := by
    rw [hline, pyStrip_hexline]
  have hsize : (pyStrip (readlineAll st.rfile).1).takeWhile (fun x => x ≠ 59)
      = hexRender c.length := by
    rw [hstrip]
    refine takeWhile_ne_semi _ ?_
    intro x hx
    rcases hexRender_mem c.length x hx with ⟨h1, h2⟩ | ⟨h1, h2⟩ <;> omega
  have hparse : pyParseHex ((pyStrip (readlineAll st.rfile).1).takeWhile (fun x => x ≠ 59))
      = some c.length := by
    rw [hsize, pyParseHex_hexRender]
  have hlen0 : c.length ≠ 0 := by
    intro h
    exact hc (List.length_eq_zero.mp h)
  have htake : (c ++ 13 :: 10 :: rest).take c.length = c :=
    List.take_left c (13 :: 10 :: rest)
  have hdrop : (c ++ 13 :: 10 :: rest).drop c.length = 13 :: 10 :: rest :=
    List.drop_left c (13 :: 10 :: rest)
  refine ⟨st.bytesRead + (hexRender c.length ++ [13, 10]).length + c.length, ?_⟩
  unfold chunkedFetch
  rw [if_neg (by simp [hcl])]
  simp only [hml, hr1, hline, hbuf, hcl]
  rw [if_neg (by simp)]
  have hparse2 : pyParseHex ((pyStrip (hexRender c.length ++ [13, 10])).takeWhile
      (fun x => x ≠ 59)) = some c.length := by
    rw [pyStrip_hexline]
    rw [takeWhile_ne_semi _ (fun x hx => by
      rcases hexRender_mem c.length x hx with ⟨h1, h2⟩ | ⟨h1, h2⟩ <;> omega)]
    exact pyParseHex_hexRender c.length
  simp only [hparse2]
  rw [if_neg hlen0, if_neg (by simp)]
  rw [htake, hdrop]
  rw [if_neg (by simp [crlfB])]
  simp

theorem chunkedFetch_terminal (st : ChunkedState) (rest : Bytes)
    (hcl : st.closed = false) (hml : st.maxlen = 0)
    (hrf : st.rfile = 48 :: 13 :: 10 :: rest) :
    ∃ br, chunkedFetch st
      = .ok { rfile := rest, maxlen := st.maxlen, bytesRead := br,
              buffer := st.buffer, closed := true } := by
  have hrla : readlineAll st.rfile = ([48, 13, 10], rest) := by
    rw [hrf]
    have := readlineAll_append [48, 13] rest (by decide)
    simpa using this
  refine ⟨st.bytesRead + 3, ?_⟩
  unfold chunkedFetch
  rw [if_neg (by simp [hcl])]
  simp only [hrla, hml]
  rw [if_neg (by simp)]
  have hstrip : pyStrip [48, 13, 10] = [48] := by decide
  have : pyParseHex ((pyStrip ([48, 13, 10] : Bytes)).takeWhile (fun x => x ≠ 59))
      = some 0 := by
    rw [hstrip]
    decide
  simp only [this]
  simp

theorem encodeChunked_cons (c : Bytes) (cs : List Bytes) :
    encodeChunked (c :: cs) = requestWrite true c ++ encodeChunked cs := by
  simp [encodeChunked]

/-- Reading the encoding of a chunk list with any falsy size argument
(None or 0) returns all payload bytes appended to the data accumulated so
far. -/
theorem chunkedRead_encodeChunked (size : Option Nat) (hsz : truthySize size = false) :
    ∀ (chunks : List Bytes), (∀ c ∈ chunks, c ≠ []) →
    ∀ (data : Bytes) (st : ChunkedState), st.buffer = [] → st.closed = false →
      st.maxlen = 0 → st.rfile = encodeChunked chunks →
      ∃ st2, chunkedRead (chunks.length + 1) size st data
          = .ok (data ++ chunks.flatten, st2) := by
  intro chunks
  induction chunks with
  | nil =>
    intro _ data st hbuf hcl hml hrf
    obtain ⟨br, hfetch⟩ := chunkedFetch_terminal st [13, 10] hcl hml (by rw [hrf]; rfl)
    refine ⟨{ rfile := [13, 10], maxlen := st.maxlen, bytesRead := br,
              buffer := st.buffer, closed := true }, ?_⟩
    unfold chunkedRead
    rw [if_neg (by simp [hsz]), if_pos hbuf]
    simp only [hfetch]
    simp [hbuf]
  | cons c cs ih =>
    intro hnz data st hbuf hcl hml hrf
    have hc : c ≠ [] := hnz c (by simp)
    obtain ⟨br, hfetch⟩ := chunkedFetch_chunk st c (encodeChunked cs) hc hbuf hcl hml
      (by rw [hrf, encodeChunked_cons])
    obtain ⟨st2, hrec⟩ := ih (fun x hx => hnz x (by simp [hx])) (data ++ c)
      { rfile := encodeChunked cs, maxlen := st.maxlen, bytesRead := br,
        buffer := [], closed := false }
      rfl rfl hml rfl
    refine ⟨st2, ?_⟩
    show chunkedRead (cs.length + 1 + 1) size st data = _
    unfold chunkedRead
    rw [if_neg (by simp [hsz]), if_pos hbuf]
    simp only [hfetch]
    rw [if_neg hc, if_neg (by simp [hsz])]
    rw [hrec]
    simp

/-- C1: emitting each non-empty chunk through HTTPRequest.write with
chunked_write set, followed by the terminal 0 CRLF CRLF, and reading the
resulting stream to exhaustion through a ChunkedRFile with maxlen 0,
returns exactly the concatenation of the chunks. -/
theorem c1_chunked_roundtrip (chunks : List Bytes) (hnz : ∀ c ∈ chunks, c ≠ []) :
    ∃ st2, chunkedRead (chunks.length + 1) none
        (ChunkedState.init (encodeChunked chunks) 0) []
      = .ok (chunks.flatten, st2) := by
  have h := chunkedRead_encodeChunked none rfl chunks hnz []
    (ChunkedState.init (encodeChunked chunks) 0) rfl rfl rfl rfl
  simpa using h

/-- Witness for C1 at two concrete chunks. -/
theorem c1_chunked_roundtrip_witness :
    ∃ st2, chunkedRead 3 none
        (ChunkedState.init (encodeChunked [[104, 105], [33]]) 0) []
      = .ok ([104, 105, 33], st2) := by
  have h := c1_chunked_roundtrip [[104, 105], [33]] (by decide)
  simpa using h

/-- C10: a size argument of 0 is falsy, so ChunkedRFile.read(0) behaves
exactly like read() with no size limit on every state, and on an encoded
non-empty chunk sequence it returns the whole (non-empty) decoded body
rather than the empty byte string. -/
theorem c10_read_zero_reads_all :
    (∀ (fuel : Nat) (st : ChunkedState) (data : Bytes),
        chunkedRead fuel (some 0) st data = chunkedRead fuel none st data) ∧
    (∀ (chunks : List Bytes), (∀ c ∈ chunks, c ≠ []) → chunks ≠ [] →
        ∃ st2, chunkedRead (chunks.length + 1) (some 0)
            (ChunkedState.init (encodeChunked chunks) 0) []
          = .ok (chunks.flatten, st2) ∧ chunks.flatten ≠ []) := by
  constructor
  · intro fuel
    induction fuel with
    | zero => intro st data; rfl
    | succ n ih =>
      intro st data
      simp only [chunkedRead, truthySize]
      norm_num
      cases hft : (if st.buffer = [] then chunkedFetch st else .ok st) with
      | error e => simp [hft]
      | ok st1 =>
        by_cases hb : st1.buffer = []
        · simp [hft, hb]
        · simp [hft, hb, ih]
  · intro chunks hnz hne
    have h := chunkedRead_encodeChunked (some 0) rfl chunks hnz []
      (ChunkedState.init (encodeChunked chunks) 0) rfl rfl rfl rfl
    obtain ⟨st2, h2⟩ := h
    refine ⟨st2, by simpa using h2, ?_⟩
    cases chunks with
    | nil => exact absurd rfl hne
    | cons c cs =>
      have hc : c ≠ [] := hnz c (by simp)
      simp only [List.flatten_cons, ne_eq, List.append_eq_nil]
      intro hcontra
      exact hc hcontra.1

/-- Witness for C10 at one concrete chunk. -/
theorem c10_read_zero_reads_all_witness :
    ∃ st2, chunkedRead 2 (some 0) (ChunkedState.init (encodeChunked [[104]]) 0) []
      = .ok ([104], st2) ∧ ([104] : Bytes) ≠ [] := by
  have h := c10_read_zero_reads_all.2 [[104]] (by decide) (by decide)
  simpa using h

/-! ## C3 and C4: request-line parsing -/

/-- Evaluation of readRequestLineCore on a request line on which every
stage before version negotiation succeeds (hypotheses h1 to h9 name the
stage outcomes): the result is a 505 when the majors differ and otherwise
the success carrying the rejoined path, the raw query string and the
negotiated protocol. -/
theorem readRequestLineCore_eval (line srvp method uri reqp : Bytes)
    (maj minr smaj sminr : Nat) (s a : Option Bytes) (path0 : Bytes) (atoms : List Bytes)
    (h1 : endsWithCRLF line = true)
    (h2 : splitSpace2 (pyStrip line) = [method, uri, reqp])
    (h3 : digitAt reqp 5 = some maj)
    (h4 : digitAt reqp 7 = some minr)
    (h5 : parse_request_uri uri = some (s, a, some path0))
    (h6 : path0.contains 35 = false)
    (h7 : (splitQuotedSlash (pathBeforeQ path0)).mapM pyUnquote = some atoms)
    (h8 : digitAt srvp 5 = some smaj)
    (h9 : digitAt srvp 7 = some sminr) :
    readRequestLineCore line srvp
      = if smaj ≠ maj then .respond (ascii "505 HTTP Version Not Supported")
        else .success method (List.intercalate [37, 50, 70] atoms) (qsOf path0)
               (protoStringOf (pyMinPair (maj, minr) (smaj, sminr))) := by
  unfold readRequestLineCore
  rw [if_neg (by simp [h1]), h2]
  simp only [h3, h4, h5, h6, h7, h8, h9, Bool.false_eq_true, if_false]

/-- Evaluation of readRequestLineCore when percent-decoding an atom of the
path fails: the 400 Bad Request simple_response, before any version check. -/
theorem readRequestLineCore_badEscape (line srvp method uri reqp : Bytes)
    (maj minr : Nat) (s a : Option Bytes) (path0 : Bytes)
    (h1 : endsWithCRLF line = true)
    (h2 : splitSpace2 (pyStrip line) = [method, uri, reqp])
    (h3 : digitAt reqp 5 = some maj)
    (h4 : digitAt reqp 7 = some minr)
    (h5 : parse_request_uri uri = some (s, a, some path0))
    (h6 : path0.contains 35 = false)
    (h7 : (splitQuotedSlash (pathBeforeQ path0)).mapM pyUnquote = none) :
    readRequestLineCore line srvp = .respond (ascii "400 Bad Request") := by
  unfold readRequestLineCore
  rw [if_neg (by simp [h1]), h2]
  simp only [h3, h4, h5, h6, h7, Bool.false_eq_true, if_false]

/-- C3: on a well-formed request line (the hypotheses spell out that every
parsing stage before version negotiation succeeds), read_request_line
responds 505 HTTP Version Not Supported and fails exactly when the request
and server major version numbers differ, and otherwise succeeds with
response_protocol HTTP/x.y where (x, y) is the lexicographic minimum of the
request pair and the server pair. -/
theorem c3_version_negotiation (line srvp method uri reqp : Bytes)
    (maj minr smaj sminr : Nat) (s a : Option Bytes) (path0 : Bytes) (atoms : List Bytes)
    (h1 : endsWithCRLF line = true)
    (h2 : splitSpace2 (pyStrip line) = [method, uri, reqp])
    (h3 : digitAt reqp 5 = some maj)
    (h4 : digitAt reqp 7 = some minr)
    (h5 : parse_request_uri uri = some (s, a, some path0))
    (h6 : path0.contains 35 = false)
    (h7 : (splitQuotedSlash (pathBeforeQ path0)).mapM pyUnquote = some atoms)
    (h8 : digitAt srvp 5 = some smaj)
    (h9 : digitAt srvp 7 = some sminr) :
    (readRequestLineCore line srvp = .respond (ascii "505 HTTP Version Not Supported")
        ↔ maj ≠ smaj) ∧
    (maj = smaj →
      readRequestLineCore line srvp
        = .success method (List.intercalate [37, 50, 70] atoms) (qsOf path0)
            (protoStringOf (pyMinPair (maj, minr) (smaj, sminr)))) := by
  have hcore := readRequestLineCore_eval line srvp method uri reqp maj minr smaj sminr
    s a path0 atoms h1 h2 h3 h4 h5 h6 h7 h8 h9
  constructor
  · constructor
    · intro h505
      by_contra hne
      have heq : maj = smaj := hne
      have hcond : ¬ (smaj ≠ maj) := by omega
      rw [hcore, if_neg hcond] at h505
      exact ReqLineResult.noConfusion h505
    · intro hne
      rw [hcore, if_pos (Ne.symm hne)]
  · intro heq
    have hcond : ¬ (smaj ≠ maj) := by omega
    rw [hcore, if_neg hcond]

/-- Witness for C3 at GET /a HTTP/1.0 against an HTTP/1.1 server. -/
theorem c3_version_negotiation_witness :
    (readRequestLineCore (ascii "GET /a HTTP/1.0\r\n") (ascii "HTTP/1.1")
        = .respond (ascii "505 HTTP Version Not Supported") ↔ (1 : Nat) ≠ 1) ∧
    ((1 : Nat) = 1 →
      readRequestLineCore (ascii "GET /a HTTP/1.0\r\n") (ascii "HTTP/1.1")
        = .success (ascii "GET") (List.intercalate [37, 50, 70] [ascii "/a"])
            (qsOf (ascii "/a")) (protoStringOf (pyMinPair (1, 0) (1, 1)))) :=
  c3_version_negotiation (ascii "GET /a HTTP/1.0\r\n") (ascii "HTTP/1.1")
    (ascii "GET") (ascii "/a") (ascii "HTTP/1.0") 1 0 1 1 none none (ascii "/a")
    [ascii "/a"] (by decide) (by decide) (by decide) (by decide) (by decide)
    (by decide) (by decide) (by decide) (by decide)

/-- C4: on a request line whose URI yields a path, the stored path is the
part of the path before the first question mark, split at case-insensitive
%2F occurrences, each atom percent-decoded, and rejoined with the literal
bytes %2F; the query string after the first question mark is stored with no
decoding; and a malformed percent-escape produces a 400 Bad Request
simple_response and parse failure. -/
theorem c4_path_unquote (line srvp method uri reqp : Bytes)
    (maj minr : Nat) (s a : Option Bytes) (path0 : Bytes)
    (h1 : endsWithCRLF line = true)
    (h2 : splitSpace2 (pyStrip line) = [method, uri, reqp])
    (h3 : digitAt reqp 5 = some maj)
    (h4 : digitAt reqp 7 = some minr)
    (h5 : parse_request_uri uri = some (s, a, some path0))
    (h6 : path0.contains 35 = false) :
    (∀ (atoms : List Bytes) (smaj sminr : Nat),
        (splitQuotedSlash (pathBeforeQ path0)).mapM pyUnquote = some atoms →
        digitAt srvp 5 = some smaj → digitAt srvp 7 = some sminr → maj = smaj →
        readRequestLineCore line srvp
          = .success method (List.intercalate [37, 50, 70] atoms) (qsOf path0)
              (protoStringOf (pyMinPair (maj, minr) (smaj, sminr)))) ∧
    ((splitQuotedSlash (pathBeforeQ path0)).mapM pyUnquote = none →
        readRequestLineCore line srvp = .respond (ascii "400 Bad Request")) := by
  constructor
  · intro atoms smaj sminr h7 h8 h9 heq
    have hcore := readRequestLineCore_eval line srvp method uri reqp maj minr smaj sminr
      s a path0 atoms h1 h2 h3 h4 h5 h6 h7 h8 h9
    have hcond : ¬ (smaj ≠ maj) := by omega
    rw [hcore, if_neg hcond]
  · intro h7
    exact readRequestLineCore_badEscape line srvp method uri reqp maj minr s a path0
      h1 h2 h3 h4 h5 h6 h7

/-- Witness for C4 at GET /a%20b%2Fc?x=%41 HTTP/1.1: the stored path is
/a b%2Fc and the stored query string is the undecoded x=%41; and at
GET /a%zz HTTP/1.1 the malformed escape produces the 400. -/
theorem c4_path_unquote_witness :
    readRequestLineCore (ascii "GET /a%20b%2Fc?x=%41 HTTP/1.1\r\n") (ascii "HTTP/1.1")
      = .success (ascii "GET") (ascii "/a b%2Fc") (ascii "x=%41") (ascii "HTTP/1.1") ∧
    readRequestLineCore (ascii "GET /a%zz HTTP/1.1\r\n") (ascii "HTTP/1.1")
      = .respond (ascii "400 Bad Request") := by
  constructor
  · have h := (c4_path_unquote (ascii "GET /a%20b%2Fc?x=%41 HTTP/1.1\r\n")
      (ascii "HTTP/1.1") (ascii "GET") (ascii "/a%20b%2Fc?x=%41") (ascii "HTTP/1.1")
      1 1 none none (ascii "/a%20b%2Fc?x=%41")
      (by decide) (by decide) (by decide) (by decide) (by decide) (by decide)).1
      [ascii "/a b", ascii "c"] 1 1 (by decide) (by decide) (by decide) rfl
    rw [h]
    decide
  · exact (c4_path_unquote (ascii "GET /a%zz HTTP/1.1\r\n") (ascii "HTTP/1.1")
      (ascii "GET") (ascii "/a%zz") (ascii "HTTP/1.1") 1 1 none none (ascii "/a%zz")
      (by decide) (by decide) (by decide) (by decide) (by decide) (by decide)).2
      (by decide)

/-! ## read_headers step lemmas -/

theorem read_headers_crlf (fuel : Nat) (rest : Bytes) (hdict : HDict) (hname : Option Bytes) :
    read_headers (fuel + 1) (13 :: 10 :: rest) hdict hname = .ok hdict rest := by
  have hrla : readlineAll (13 :: 10 :: rest) = ([13, 10], rest) := by
    have h := readlineAll_append [13] rest (by decide)
    simpa using h
  unfold read_headers
  simp [hrla, crlfB]

theorem read_headers_step_header (fuel : Nat) (name v rest : Bytes) (hdict : HDict)
    (hname : Option Bytes)
    (hn : name ≠ [])
    (hnOk : ∀ c ∈ name, isPySpace c = false ∧ c ≠ 58)
    (hv : ∀ c ∈ v, c ≠ 10)
    (hvh : ∀ c, v.head? = some c → isPySpace c = false)
    (hvl : ∀ c, v.getLast? = some c → isPySpace c = false) :
    read_headers (fuel + 1) (mkHeaderLine name v ++ rest) hdict hname
      = read_headers fuel rest
          (dictSet hdict (pyTitle name) (foldValue hdict (pyTitle name) v))
          (some (pyTitle name)) := by
  obtain ⟨n0, nt, hne⟩ := List.exists_cons_of_ne_nil hn
  have hn0 := hnOk n0 (by simp [hne])
  have hn0ne : ∀ x, x = 32 ∨ x = 9 ∨ x = 13 ∨ x = 10 → n0 ≠ x := by
    intro x hx hcontra
    subst hcontra
    rcases hx with h | h | h | h <;> subst h <;> simp [isPySpace] at hn0
  have hxs : ∀ x ∈ (name ++ 58 :: 32 :: (v ++ [13])), x ≠ 10 := by
    intro x hx
    rcases List.mem_append.1 hx with hx | hx
    · intro hcontra
      subst hcontra
      simpa [isPySpace] using (hnOk 10 hx).1
    · rcases hx with _ | ⟨_, hx⟩
      · omega
      rcases hx with _ | ⟨_, hx⟩
      · omega
      rcases List.mem_append.1 hx with hx | hx
      · exact hv x hx
      · simp at hx
        omega
  have hshape : mkHeaderLine name v ++ rest
      = (name ++ 58 :: 32 :: (v ++ [13])) ++ 10 :: rest := by
    simp [mkHeaderLine, crlfB]
  have hrla : readlineAll (mkHeaderLine name v ++ rest)
      = ((name ++ 58 :: 32 :: (v ++ [13])) ++ [10], rest) := by
    rw [hshape]
    exact readlineAll_append _ _ hxs
  have hlineL : (name ++ 58 :: 32 :: (v ++ [13])) ++ [10] = mkHeaderLine name v := by
    simp [mkHeaderLine, crlfB]
  have hrla2 : readlineAll (mkHeaderLine name v ++ rest) = (mkHeaderLine name v, rest) := by
    rw [hrla, hlineL]
  have hlshape : mkHeaderLine name v = n0 :: (nt ++ 58 :: 32 :: (v ++ [13, 10])) := by
    simp [mkHeaderLine, crlfB, hne]
  have hnnil : mkHeaderLine name v ≠ [] := by
    rw [hlshape]
    simp
  have hncrlf : mkHeaderLine name v ≠ crlfB := by
    rw [hlshape]
    intro h
    have := List.head_eq_of_cons_eq h
    exact hn0ne 13 (by simp) this
  have hends : endsWithCRLF (mkHeaderLine name v) = true := by
    have h : mkHeaderLine name v = (name ++ 58 :: 32 :: v) ++ crlfB := by
      simp [mkHeaderLine, crlfB]
    rw [h]
    exact endsWithCRLF_append _
  have hhead : (mkHeaderLine name v).head? = some n0 := by
    rw [hlshape]
    rfl
  have hnocont : ¬ ((mkHeaderLine name v).head? = some 32
      ∨ (mkHeaderLine name v).head? = some 9) := by
    rw [hhead]
    rintro (h | h)
    · exact hn0ne 32 (Or.inl rfl) (by simpa using h)
    · exact hn0ne 9 (Or.inr (Or.inl rfl)) (by simpa using h)
  have hsplit : splitOnceByte 58 (mkHeaderLine name v)
      = some (name, 32 :: (v ++ [13, 10])) := by
    have h : mkHeaderLine name v = name ++ 58 :: (32 :: (v ++ [13, 10])) := by
      simp [mkHeaderLine, crlfB]
    rw [h]
    exact splitOnceByte_append 58 name _ (fun c hc => (hnOk c hc).2)
  have hstripname : pyStrip name = name := by
    have h := pyStrip_wrap [] [] name (by simp) (by simp)
      (fun c hc => (hnOk c (mem_of_head?_eq hc)).1)
      (fun c hc => (hnOk c (mem_of_getLast?_eq hc)).1)
    simpa using h
  have hstripv : pyStrip (32 :: (v ++ [13, 10])) = v := by
    have h := pyStrip_wrap [32] [13, 10] v (by decide) (by decide) hvh hvl
    simpa using h
  simp only [read_headers, hrla2]
  rw [if_neg hnnil, if_neg hncrlf, if_neg (by simp [hends]), if_neg hnocont]
  simp only [hsplit, hstripv, hstripname]

theorem read_headers_step_cont (fuel : Nat) (cont rest : Bytes) (hdict : HDict) (k : Bytes)
    (hc : ∀ c ∈ cont, c ≠ 10)
    (hch : ∀ c, cont.head? = some c → isPySpace c = false)
    (hcl : ∀ c, cont.getLast? = some c → isPySpace c = false) :
    read_headers (fuel + 1) (32 :: ((cont ++ crlfB) ++ rest)) hdict (some k)
      = read_headers fuel rest (dictSet hdict k (foldValue hdict k cont)) (some k) := by
  have hxs : ∀ x ∈ 32 :: (cont ++ [13]), x ≠ 10 := by
    intro x hx
    rcases hx with _ | ⟨_, hx⟩
    · omega
    rcases List.mem_append.1 hx with hx | hx
    · exact hc x hx
    · simp at hx
      omega
  have hshape : 32 :: ((cont ++ crlfB) ++ rest)
      = (32 :: (cont ++ [13])) ++ 10 :: rest := by
    simp [crlfB]
  have hrla : readlineAll (32 :: ((cont ++ crlfB) ++ rest))
      = (32 :: ((cont ++ [13]) ++ [10]), rest) := by
    rw [hshape]
    have h := readlineAll_append (32 :: (cont ++ [13])) rest hxs
    simpa using h
  have hlineL : 32 :: ((cont ++ [13]) ++ [10]) = 32 :: (cont ++ [13, 10]) := by
    simp
  have hstrip : pyStrip (32 :: (cont ++ [13, 10])) = cont := by
    have h := pyStrip_wrap [32] [13, 10] cont (by decide) (by decide) hch hcl
    simpa using h
  have hnnil : (32 : Nat) :: (cont ++ [13, 10]) ≠ [] := by simp
  have hncrlf2 : (32 : Nat) :: (cont ++ [13, 10]) ≠ crlfB := by simp [crlfB]
  have hends : endsWithCRLF (32 :: (cont ++ [13, 10])) = true := by
    have h2 : (32 : Nat) :: (cont ++ [13, 10]) = (32 :: cont) ++ crlfB := by
      simp [crlfB]
    rw [h2]
    exact endsWithCRLF_append _
  have hcont2 : List.head? (32 :: (cont ++ [13, 10])) = some 32 ∨
      List.head? (32 :: (cont ++ [13, 10])) = some 9 := Or.inl rfl
  simp only [read_headers, hrla, hlineL]
  rw [if_neg hnnil, if_neg hncrlf2, if_neg (by simp [hends]), if_pos hcont2]
  simp only [hstrip]

/-! ## C5 and C6 counterexamples -/

/-- C5 counterexample: TE is in comma_separated_headers, yet a repeated TE
header overwrites instead of comma-joining, because the stored title-cased
name Te is not in the list. -/
theorem c5_te_overwrites :
    commaSeparatedHeaders.contains (ascii "TE") = true ∧
    read_headers 3 (ascii "TE: a\r\nTE: b\r\n\r\n") [] none
      = .ok [(ascii "Te", ascii "b")] [] := by
  constructor
  · rfl
  · rfl

/-- C6 counterexample: a continuation line under a non-comma-foldable
header (Host) replaces the stored value with the continuation value alone
instead of appending to the previous value. -/
theorem c6_continuation_replaces :
    read_headers 3 (ascii "Host: a\r\n b\r\n\r\n") [] none
      = .ok [(ascii "Host", ascii "b")] [] ∧
    ∀ t : Bytes, ascii "b" ≠ ascii "a" ++ t := by
  constructor
  · rfl
  · intro t h
    have h2 := congrArg List.head? h
    simp [ascii] at h2

/-! ## C7: simple_response on 413/414 -/

/-- C7: evaluation of simple_response at a 413 status.  On a non-HTTP/1.1
response protocol the wire status line still carries 413 (the downgrade of
the local variable status to 400 Bad Request happens after the status line
was placed in the buffer and is dead code), close_connection is forced, and
on HTTP/1.1 a Connection close header is emitted. -/
theorem c7_simple_response_413 :
    (simple_response (ascii "HTTP/1.1") (ascii "HTTP/1.0") false
        (ascii "413 Request Entity Too Large") (ascii "oops"))
      = { out := ascii "HTTP/1.1 413 Request Entity Too Large\r\nContent-Length: 4\r\nContent-Type: text/plain\r\n\r\noops",
          closeConnection := true } ∧
    (simple_response (ascii "HTTP/1.1") (ascii "HTTP/1.1") false
        (ascii "413 Request Entity Too Large") (ascii "oops"))
      = { out := ascii "HTTP/1.1 413 Request Entity Too Large\r\nContent-Length: 4\r\nContent-Type: text/plain\r\nConnection: close\r\n\r\noops",
          closeConnection := true } := by
  exact ⟨by decide, by decide⟩

/-! ## C5 and C6 amended -/

/-- C5 (amended): in a header block with two occurrences of the same raw
header name, the second value is comma-joined to the first only when the
title-cased name is literally in comma_separated_headers (which the
title-cased forms of TE and WWW-Authenticate are not) and the first stored
value is non-empty; in every other case the second occurrence overwrites.
Storage and the repeat check use the title-cased name. -/
theorem c5_fold_titlecased (name v1 v2 : Bytes)
    (hn : name ≠ [])
    (hnOk : ∀ c ∈ name, isPySpace c = false ∧ c ≠ 58)
    (hv1 : ∀ c ∈ v1, c ≠ 10)
    (hv1h : ∀ c, v1.head? = some c → isPySpace c = false)
    (hv1l : ∀ c, v1.getLast? = some c → isPySpace c = false)
    (hv2 : ∀ c ∈ v2, c ≠ 10)
    (hv2h : ∀ c, v2.head? = some c → isPySpace c = false)
    (hv2l : ∀ c, v2.getLast? = some c → isPySpace c = false) :
    read_headers 3 (mkHeaderLine name v1 ++ (mkHeaderLine name v2 ++ crlfB)) [] none
      = .ok [(pyTitle name,
          if commaSeparatedHeaders.contains (pyTitle name) ∧ v1 ≠ []
          then v1 ++ [44, 32] ++ v2 else v2)] [] := by
  rw [read_headers_step_header 2 name v1 (mkHeaderLine name v2 ++ crlfB) [] none
    hn hnOk hv1 hv1h hv1l]
  rw [read_headers_step_header 1 name v2 crlfB _ _ hn hnOk hv2 hv2h hv2l]
  rw [show crlfB = 13 :: 10 :: ([] : Bytes) from rfl, read_headers_crlf]
  by_cases hcs : commaSeparatedHeaders.contains (pyTitle name) = true <;>
    by_cases hv1e : v1 = [] <;>
      simp [foldValue, dictGet, dictSet, List.find?, hcs, hv1e]

/-- Witness for C5 (amended) at a repeated Allow header: the values fold
with a comma; Allow is title-case stable and in the folded list. -/
theorem c5_fold_titlecased_witness :
    read_headers 3 (mkHeaderLine (ascii "Allow") (ascii "a")
        ++ (mkHeaderLine (ascii "Allow") (ascii "b") ++ crlfB)) [] none
      = .ok [(pyTitle (ascii "Allow"),
          if commaSeparatedHeaders.contains (pyTitle (ascii "Allow")) ∧ ascii "a" ≠ []
          then ascii "a" ++ [44, 32] ++ ascii "b" else ascii "b")] [] :=
  c5_fold_titlecased (ascii "Allow") (ascii "a") (ascii "b")
    (by decide) (by decide) (by decide)
    (by intro c hc; simp [ascii] at hc; subst hc; decide)
    (by intro c hc; simp [ascii] at hc; subst hc; decide)
    (by decide)
    (by intro c hc; simp [ascii] at hc; subst hc; decide)
    (by intro c hc; simp [ascii] at hc; subst hc; decide)

/-- C6 (amended): a continuation line, processed after a header line, is
stored against the preceding header name and creates no new key, but the
stored value becomes the previous value comma-joined with the stripped
continuation only when the preceding title-cased name is in
comma_separated_headers and the previous value is non-empty; otherwise the
stripped continuation value replaces the previous value. -/
theorem c6_continuation_fold (name v1 cont : Bytes)
    (hn : name ≠ [])
    (hnOk : ∀ c ∈ name, isPySpace c = false ∧ c ≠ 58)
    (hv1 : ∀ c ∈ v1, c ≠ 10)
    (hv1h : ∀ c, v1.head? = some c → isPySpace c = false)
    (hv1l : ∀ c, v1.getLast? = some c → isPySpace c = false)
    (hc : ∀ c ∈ cont, c ≠ 10)
    (hch : ∀ c, cont.head? = some c → isPySpace c = false)
    (hclast : ∀ c, cont.getLast? = some c → isPySpace c = false) :
    read_headers 3 (mkHeaderLine name v1 ++ (32 :: ((cont ++ crlfB) ++ crlfB))) [] none
      = .ok [(pyTitle name,
          if commaSeparatedHeaders.contains (pyTitle name) ∧ v1 ≠ []
          then v1 ++ [44, 32] ++ cont else cont)] [] := by
  rw [read_headers_step_header 2 name v1 (32 :: ((cont ++ crlfB) ++ crlfB)) [] none
    hn hnOk hv1 hv1h hv1l]
  rw [read_headers_step_cont 1 cont crlfB _ (pyTitle name) hc hch hclast]
  rw [show crlfB = 13 :: 10 :: ([] : Bytes) from rfl, read_headers_crlf]
  by_cases hcs : commaSeparatedHeaders.contains (pyTitle name) = true <;>
    by_cases hv1e : v1 = [] <;>
      simp [foldValue, dictGet, dictSet, List.find?, hcs, hv1e]

/-- Witness for C6 (amended) at a Host header with a continuation line: the
stored value is the continuation value alone, and at an Allow header, where
the previous value is comma-joined. -/
theorem c6_continuation_fold_witness :
    read_headers 3 (mkHeaderLine (ascii "Host") (ascii "a")
        ++ (32 :: ((ascii "b" ++ crlfB) ++ crlfB))) [] none
      = .ok [(pyTitle (ascii "Host"),
          if commaSeparatedHeaders.contains (pyTitle (ascii "Host")) ∧ ascii "a" ≠ []
          then ascii "a" ++ [44, 32] ++ ascii "b" else ascii "b")] [] :=
  c6_continuation_fold (ascii "Host") (ascii "a") (ascii "b")
    (by decide) (by decide) (by decide)
    (by intro c hc; simp [ascii] at hc; subst hc; decide)
    (by intro c hc; simp [ascii] at hc; subst hc; decide)
    (by decide)
    (by intro c hc; simp [ascii] at hc; subst hc; decide)
    (by intro c hc; simp [ascii] at hc; subst hc; decide)

end Clay
